import Mathlib

/-!
Shallow embedding of the `scanner_demo` repository's core
(`src/marker/octree.rs` and `src/world/mod.rs`) and proofs about it.

`f32`/`f64` values are modelled as rationals (`ℚ`): every concrete input
used below stays in ranges where the source's float arithmetic is exact,
and none of the verified properties depends on rounding.  Growable `Vec`s
are modelled as `List`s, `u32`/`usize` indices as `Nat`, and the two
`loop`/`while` constructs of `Octree::insert` are given explicit fuel.
-/

namespace ScannerDemo

/-- `glam::Vec3`, with rational components. -/
structure Vec3 where
  x : ℚ
  y : ℚ
  z : ℚ
deriving DecidableEq, Repr

namespace Vec3

def add (a b : Vec3) : Vec3 := ⟨a.x + b.x, a.y + b.y, a.z + b.z⟩

def sub (a b : Vec3) : Vec3 := ⟨a.x - b.x, a.y - b.y, a.z - b.z⟩

def smul (k : ℚ) (a : Vec3) : Vec3 := ⟨k * a.x, k * a.y, k * a.z⟩

/-- Componentwise product (`glam` `Mul` on `Vec3`). -/
def mul (a b : Vec3) : Vec3 := ⟨a.x * b.x, a.y * b.y, a.z * b.z⟩

def dot (a b : Vec3) : ℚ := a.x * b.x + a.y * b.y + a.z * b.z

def cross (a b : Vec3) : Vec3 :=
  ⟨a.y * b.z - a.z * b.y, a.z * b.x - a.x * b.z, a.x * b.y - a.y * b.x⟩

/-- `Vec3::distance_squared`. -/
def distance_squared (a b : Vec3) : ℚ :=
  (a.x - b.x) * (a.x - b.x) + (a.y - b.y) * (a.y - b.y) + (a.z - b.z) * (a.z - b.z)

end Vec3

/-- `glam::Vec4`: used only as a frustum plane `(normal.x, normal.y, normal.z, d)`. -/
structure Vec4 where
  x : ℚ
  y : ℚ
  z : ℚ
  w : ℚ
deriving DecidableEq, Repr

/-- `util.rs`: `Frustum = [Vec4; 6]`, modelled as a list of planes. -/
abbrev Frustum := List Vec4

/-- `marker/mod.rs`: `Mark { pos: Vec3 }`. -/
structure Mark where
  pos : Vec3
deriving DecidableEq, Repr

/-- `marker/mod.rs`: `MarkRaw { pos, model }`.  The `model` matrix is
`Mat4::from_translation(pos)`, a pure function of `pos`, and is omitted. -/
structure MarkRaw where
  pos : Vec3
deriving DecidableEq, Repr

/-- `Mark::to_raw`. -/
def Mark.to_raw (m : Mark) : MarkRaw := ⟨m.pos⟩

/-- `octree.rs`: `enum Content { Parent([u32; 8]), Leaf(Vec<MarkRaw>) }`. -/
inductive Content where
  | Parent : List Nat → Content
  | Leaf : List MarkRaw → Content
deriving DecidableEq, Repr

/-- `octree.rs`: `struct Octant { center, extension, content }`. -/
structure Octant where
  center : Vec3
  extension : ℚ
  content : Content
deriving DecidableEq, Repr

/-- `octree.rs`: `struct Octree { root, bucket_size, octants }`. -/
structure Octree where
  root : Nat
  bucketSize : Nat
  octants : List Octant
deriving DecidableEq, Repr

/-- `octree.rs`: `const BASE_EXTENSION: f32 = 50.0`. -/
def BASE_EXTENSION : ℚ := 50

/-- A placeholder octant: the Rust code indexes `self.octants` infallibly;
out-of-range indices (which never occur on reachable states) go to this. -/
def defaultOctant : Octant := ⟨⟨0, 0, 0⟩, 0, .Leaf []⟩

/-- `self[id]` (the `Index<u32>` impl). -/
def Octree.octantAt (o : Octree) (id : Nat) : Octant := o.octants.getD id defaultOctant

/-- `Octree::new`. -/
def Octree.new (bucketSize : Nat) : Octree :=
  ⟨0, bucketSize, [⟨⟨0, 0, 0⟩, BASE_EXTENSION, .Leaf []⟩]⟩

/-- `Octant::contains`: the bounding cube is `[center - ext, center + ext)`
on each axis (strict `<` below, `>=` above). -/
def Octant.contains (oct : Octant) (m : Mark) : Bool :=
  let under := decide (m.pos.x < oct.center.x - oct.extension)
    || decide (m.pos.y < oct.center.y - oct.extension)
    || decide (m.pos.z < oct.center.z - oct.extension)
  let above := decide (oct.center.x + oct.extension ≤ m.pos.x)
    || decide (oct.center.y + oct.extension ≤ m.pos.y)
    || decide (oct.center.z + oct.extension ≤ m.pos.z)
  !(above || under)

/-- `Octant::collide`: radius-against-plane test
`-(ext * (|nx|+|ny|+|nz|)) <= dot(n, center) - w`. -/
def Octant.collide (oct : Octant) (plane : Vec4) : Bool :=
  let r := oct.extension * (|plane.x| + |plane.y| + |plane.z|)
  let s := Vec3.dot ⟨plane.x, plane.y, plane.z⟩ oct.center - plane.w
  decide (-r ≤ s)

/-- The child-selection rule used by both loops of `Octree::insert`:
`child_id |= 1 << i` for each axis `i` with `pos[i] > center[i]`. -/
def childIndex (p c : Vec3) : Nat :=
  (if c.x < p.x then 1 else 0) + (if c.y < p.y then 2 else 0) + (if c.z < p.z then 4 else 0)

/-- Center of child octant `i`: offset `+e` on axis `j` iff bit `j` of `i`
is set, `-e` otherwise (the `i & 1 << j` loops in `Octree::insert`). -/
def childOffset (c : Vec3) (e : ℚ) (i : Nat) : Vec3 :=
  ⟨if i &&& 1 ≠ 0 then c.x + e else c.x - e,
   if i &&& 2 ≠ 0 then c.y + e else c.y - e,
   if i &&& 4 ≠ 0 then c.z + e else c.z - e⟩

/-- One iteration of the root-growth `while` loop of `Octree::insert`
(octree.rs lines 27-70): double a new root around the old one.  `child_id`
and the new parent's center both follow the side of the *old* center on
which the mark falls; the old root is pushed at slot `child_id` of the
new parent, and the remaining 7 slots get fresh empty leaves. -/
def Octree.growStep (o : Octree) (m : Mark) : Octree :=
  let center := (o.octantAt o.root).center
  let ext := (o.octantAt o.root).extension
  let childId := childIndex m.pos center
  let newCenter := childOffset center ext childId
  -- `for i in 0..8`: push `self.root` at `i == child_id`, else push a fresh
  -- leaf (recording its index `self.octants.len()` at push time).
  let acc := (List.range 8).foldl
    (fun (acc : List Octant × List Nat) i =>
      if i = childId then (acc.1, acc.2 ++ [o.root])
      else (acc.1 ++ [⟨childOffset newCenter ext i, ext, .Leaf []⟩],
            acc.2 ++ [o.octants.length + acc.1.length]))
    ([], [])
  { root := o.octants.length + acc.1.length,
    bucketSize := o.bucketSize,
    octants := o.octants ++ acc.1 ++ [⟨newCenter, ext * 2, .Parent acc.2⟩] }

/-- The root-growth `while !self[self.root].contains(mark)` loop, with fuel. -/
def Octree.growLoop : Nat → Octree → Mark → Octree
  | 0, o, _ => o
  | fuel + 1, o, m =>
    if (o.octantAt o.root).contains m then o else (o.growStep m).growLoop fuel m

/-- `data.foldl`: redistribute a full leaf's marks among 8 buckets by
`childIndex` against the leaf's center (octree.rs lines 100-108),
preserving the order of `data` inside each bucket. -/
def distribute (data : List MarkRaw) (center : Vec3) : List (List MarkRaw) :=
  data.foldl
    (fun acc m =>
      let k := childIndex m.pos center
      acc.set k (acc.getD k [] ++ [m]))
    (List.replicate 8 [])

/-- Splitting a full leaf `id` (octree.rs lines 94-136).  The source builds
`children` by `for i in 0..8` popping `children_data` from the end (so
iteration `i` pairs the `(7 - i)` center bits with bucket `7 - i`), then
pushes `children.pop()` 8 times (popping from the end again), assigning
`children_ids[i] = self.octants.len()`.  The two end-pops cancel: the
octant appended `i`-th is the one for child index `i`, and
`children_ids[i]` is the `i`-th fresh index. -/
def Octree.splitOctant (o : Octree) (id : Nat) (data : List MarkRaw) : Octree :=
  let oct := o.octantAt id
  let childrenData := distribute data oct.center
  let ext := oct.extension / 2
  let children := (List.range 8).map
    (fun i => (⟨childOffset oct.center ext (7 - i), ext,
               .Leaf (childrenData.getD (7 - i) [])⟩ : Octant))
  let childrenIds := (List.range 8).map (o.octants.length + ·)
  { o with
    octants := (o.octants ++ children.reverse).set id
      ⟨oct.center, oct.extension, .Parent childrenIds⟩ }

/-- The descent `loop` of `Octree::insert` (octree.rs lines 75-137), with
fuel: at a parent descend by `childIndex`; at a leaf with spare capacity
append; at a full leaf split it and retry at the same id. -/
def Octree.insertLoop : Nat → Octree → MarkRaw → Nat → Octree
  | 0, o, _, _ => o
  | fuel + 1, o, m, id =>
    let oct := o.octantAt id
    match oct.content with
    | .Parent children =>
      o.insertLoop fuel m (children.getD (childIndex m.pos oct.center) 0)
    | .Leaf data =>
      if data.length < o.bucketSize then
        { o with octants := o.octants.set id ⟨oct.center, oct.extension, .Leaf (data ++ [m])⟩ }
      else (o.splitOctant id data).insertLoop fuel m id

/-- `Octree::insert`: grow the root until it contains the mark, then
descend. -/
def Octree.insert (fuel : Nat) (o : Octree) (m : Mark) : Octree :=
  let o1 := o.growLoop fuel m
  o1.insertLoop fuel m.to_raw o1.root

/-- `Octree::count`: sum of the lengths of all leaf buckets. -/
def Octree.count (o : Octree) : Nat :=
  o.octants.foldl
    (fun sum oct =>
      match oct.content with
      | .Leaf data => sum + data.length
      | .Parent _ => sum)
    0

/-- The caller-owned output buffer passed to `get_visible` by mutable
reference: a `Vec<MarkRaw>` with a fixed capacity that is never
reallocated by the octree code. -/
structure Buffer where
  cap : Nat
  data : List MarkRaw
deriving DecidableEq, Repr

/-- The `children.sort_unstable_by` call of `Octree::get_visible_rec`:
order children by *descending* squared distance of their centers from
`pos` (the comparator is `total_cmp(&dist_b, &dist_a)`, so `a` precedes
`b` iff `dist_a >= dist_b`).  `sort_unstable_by` is modelled by a merge
sort realizing the same comparator; the two can differ only in the
relative order of children at equal distance. -/
def sortChildren (o : Octree) (pos : Vec3) (children : List Nat) : List Nat :=
  children.mergeSort fun a b =>
    decide (Vec3.distance_squared (o.octantAt b).center pos
      ≤ Vec3.distance_squared (o.octantAt a).center pos)

/-- The inner plane loop of `get_visible_rec`: a child is visited only
when its cube collides with every frustum plane. -/
def frustumPass (oct : Octant) (fr : Frustum) : Bool :=
  fr.all fun plane => oct.collide plane

/-- `Octree::get_visible_rec` (octree.rs lines 155-182), threading the
`&mut self` octree through the recursion, with fuel.  Returns early once
the buffer is full; at a parent, visits the frustum-passing children in
farthest-first order; at a leaf, appends
`data[..min(capacity - len, data.len())]`. -/
def Octree.get_visible_rec : Nat → Octree → Buffer → Nat → Vec3 → Frustum → Octree × Buffer
  | 0, o, buf, _, _, _ => (o, buf)
  | fuel + 1, o, buf, id, pos, fr =>
    if buf.data.length = buf.cap then (o, buf)
    else
      match (o.octantAt id).content with
      | .Parent children =>
        (sortChildren o pos children).foldl
          (fun (st : Octree × Buffer) childId =>
            if frustumPass (st.1.octantAt childId) fr then
              Octree.get_visible_rec fuel st.1 st.2 childId pos fr
            else st)
          (o, buf)
      | .Leaf data =>
        (o, ⟨buf.cap, buf.data ++ data.take (min (buf.cap - buf.data.length) data.length)⟩)

/-- `Octree::get_visible`: truncate the buffer to length 0 (capacity is
kept), then recurse from the root. -/
def Octree.get_visible (fuel : Nat) (o : Octree) (buf : Buffer) (pos : Vec3) (fr : Frustum) :
    Octree × Buffer :=
  Octree.get_visible_rec fuel o ⟨buf.cap, []⟩ o.root pos fr

/-! ## `src/world/mod.rs`: noise-field sampling, marching-cubes surface
extraction, and DDA ray traversal. -/

/-- `util.rs`: `Ray { pos, dir }`. -/
structure Ray where
  pos : Vec3
  dir : Vec3
deriving DecidableEq, Repr

/-- `util.rs`: `Triangle { a, b, c }`. -/
structure Triangle where
  a : Vec3
  b : Vec3
  c : Vec3
deriving DecidableEq, Repr

/-- `world/mod.rs`: `const SCALE: f32 = 0.01`. -/
def SCALE : ℚ := 1 / 100

/-- `world/mod.rs`: `const SURFACE_THRESHOLD: f64 = 0.5`. -/
def SURFACE_THRESHOLD : ℚ := 1 / 2

/-- `world/mod.rs`: `const VOXEL_SIZE: f32 = 5.0`. -/
def VOXEL_SIZE : ℚ := 5

/-- `world/mod.rs`: `const MAX_RAY_DIST: i32 = (1500.0 / VOXEL_SIZE) as i32 = 300`. -/
def MAX_RAY_DIST : Int := 300

/-- `f32 as i32`: truncation toward zero (all reachable uses are on
integral values, where it agrees with `floor`). -/
def ratTrunc (q : ℚ) : Int := if 0 ≤ q then ⌊q⌋ else ⌈q⌉

/-- `Vec3::floor`, componentwise. -/
def Vec3.vfloor (v : Vec3) : Vec3 := ⟨(⌊v.x⌋ : Int), (⌊v.y⌋ : Int), (⌊v.z⌋ : Int)⟩

/-- `vec / scalar` (componentwise division by a scalar). -/
def Vec3.divScalar (v : Vec3) (k : ℚ) : Vec3 := ⟨v.x / k, v.y / k, v.z / k⟩

/-- `Vec3::max`, componentwise. -/
def Vec3.vmax (a b : Vec3) : Vec3 := ⟨max a.x b.x, max a.y b.y, max a.z b.z⟩

/-- `Vec3::lerp(a, b, t) = a + (b - a) * t`. -/
def Vec3.lerp (a b : Vec3) (t : ℚ) : Vec3 := a.add (Vec3.smul t (b.sub a))

/-- The `(i32, i32, i32)` key of the triangle cache:
`(voxel.x as i32, voxel.y as i32, voxel.z as i32)`. -/
def vkey (v : Vec3) : Int × Int × Int := (ratTrunc v.x, ratTrunc v.y, ratTrunc v.z)

/-- The 8 cube-corner offsets of `voxel_triangles`, in source order. -/
def CUBE_OFFSETS : List Vec3 :=
  [⟨0, 0, 0⟩, ⟨0, 0, 1⟩, ⟨1, 0, 1⟩, ⟨1, 0, 0⟩, ⟨0, 1, 0⟩, ⟨0, 1, 1⟩, ⟨1, 1, 1⟩, ⟨1, 1, 0⟩]

/-- Modelled from the spec: `src/world/tables.rs` is not under `src/`.
§4.2 describes `EDGE_TABLE` as mapping each of the 12 cube edges to its
two corner indices; with the corner order of `voxel_triangles` these are
the bottom ring (edges 0-3), top ring (edges 4-7) and verticals
(edges 8-11).  No verified claim depends on the concrete pairing. -/
def EDGE_TABLE : List (Nat × Nat) :=
  [(0, 1), (1, 2), (2, 3), (3, 0), (4, 5), (5, 6), (6, 7), (7, 4),
   (0, 4), (1, 5), (2, 6), (3, 7)]

/-- Edges whose two endpoint corners lie on opposite sides of the surface
threshold for a given 8-bit corner configuration (bit `i` set iff corner
`i` is below the threshold). -/
def crossingEdges (layout : Nat) : List Nat :=
  (List.range 12).filter fun e =>
    let pr := EDGE_TABLE.getD e (0, 0)
    layout.testBit pr.1 != layout.testBit pr.2

/-- Modelled from the spec: `src/world/tables.rs` is not under `src/`.
§4.2 describes `TRIANGULATION_TABLE` as a fixed 256-entry dataset, each
entry a `-1`-terminated list of up to 5 triangles given as cube-edge
indices, empty exactly for the fully-below and fully-above
configurations (layouts 255 and 0).  It is modelled by emitting one
triangle on the first three threshold-crossing edges of a mixed
configuration (every mixed configuration of the cube has at least 3
crossing edges); only emptiness, termination and determinism of the
entries are relied on by the claims below. -/
def TRIANGULATION_TABLE (layout : Nat) : List Int :=
  let cr := crossingEdges layout
  let tri : List Int := if 3 ≤ cr.length then (cr.take 3).map Int.ofNat else []
  tri ++ List.replicate (16 - tri.length) (-1)

/-- `World`, with the `noise::SuperSimplex` sampler abstracted to a pure
function `ℚ → ℚ → ℚ → ℚ` (the spec's only contract for it: pure,
deterministic, seeded once) and the `HashMap` cache as an association
list (later insertions shadow earlier keys, matching map semantics). -/
structure World where
  noise : ℚ → ℚ → ℚ → ℚ
  triangle_cache : List ((Int × Int × Int) × List Triangle)

/-- `World::new` for a given sampler: the cache starts empty. -/
def World.new (noise : ℚ → ℚ → ℚ → ℚ) : World := ⟨noise, []⟩

/-- `World::surface_level`: sample the noise at `SCALE * VOXEL_SIZE * pos`
and remap from `[-1, 1]` to `[0, 1]`. -/
def World.surface_level (w : World) (pos : Vec3) : ℚ :=
  let np := Vec3.smul (SCALE * VOXEL_SIZE) pos
  (w.noise np.x np.y np.z + 1) * (1 / 2)

/-- `edge_vertex`: interpolate the threshold crossing along a cube edge
(`t = (threshold - a_val) / (b_val - a_val)`), then scale to world
coordinates. -/
def edge_vertex (cubeVertices : List (Vec3 × ℚ)) (edge : Int) : Vec3 :=
  let pr := EDGE_TABLE.getD edge.toNat (0, 0)
  let av := cubeVertices.getD pr.1 (⟨0, 0, 0⟩, 0)
  let bv := cubeVertices.getD pr.2 (⟨0, 0, 0⟩, 0)
  let t := (SURFACE_THRESHOLD - av.2) / (bv.2 - av.2)
  Vec3.smul VOXEL_SIZE (Vec3.lerp av.1 bv.1 t)

/-- The `while edges[i] != -1` triangle-building loop of
`voxel_triangles`, consuming the edge list three entries at a time. -/
def trianglesFromEdges (cube : List (Vec3 × ℚ)) : List Int → List Triangle
  | e1 :: e2 :: e3 :: rest =>
    if e1 = -1 then []
    else ⟨edge_vertex cube e1, edge_vertex cube e2, edge_vertex cube e3⟩ ::
      trianglesFromEdges cube rest
  | _ => []

/-- The `cube_indeces` array of `voxel_triangles`: the 8 corner positions
paired with their sampled surface levels. -/
def World.cubeCorners (w : World) (voxel : Vec3) : List (Vec3 × ℚ) :=
  CUBE_OFFSETS.map fun off => (voxel.add off, w.surface_level (voxel.add off))

/-- The enumerate-loop of `voxel_triangles` that ORs `1 << i` into the
configuration for every corner `i` below the threshold. -/
def cubeLayoutOf : Nat → List (Vec3 × ℚ) → Nat
  | _, [] => 0
  | i, c :: rest =>
    (if c.2 < SURFACE_THRESHOLD then 1 <<< i else 0) ||| cubeLayoutOf (i + 1) rest

/-- The 8-bit configuration as a function of the 8 "corner below
threshold" Booleans (used to settle table facts by enumeration). -/
def layoutBits (b0 b1 b2 b3 b4 b5 b6 b7 : Bool) : Nat :=
  (cond b0 (1 <<< 0) 0) ||| ((cond b1 (1 <<< 1) 0) ||| ((cond b2 (1 <<< 2) 0) |||
    ((cond b3 (1 <<< 3) 0) ||| ((cond b4 (1 <<< 4) 0) ||| ((cond b5 (1 <<< 5) 0) |||
      ((cond b6 (1 <<< 6) 0) ||| ((cond b7 (1 <<< 7) 0) ||| 0)))))))

/-- The cache-miss computation of `World::voxel_triangles`: sample the 8
corners, build the configuration bits, look up the table and emit
triangles.  Reads only the noise field. -/
def World.freshTriangles (w : World) (voxel : Vec3) : List Triangle :=
  trianglesFromEdges (w.cubeCorners voxel)
    (TRIANGULATION_TABLE (cubeLayoutOf 0 (w.cubeCorners voxel)))

/-- `World::voxel_triangles` (world/mod.rs lines 126-165): return the
cached list if present, else compute, cache and return it. -/
def World.voxel_triangles (w : World) (voxel : Vec3) : List Triangle × World :=
  match w.triangle_cache.lookup (vkey voxel) with
  | some triangles => (triangles, w)
  | none =>
    let triangles := w.freshTriangles voxel
    (triangles, ⟨w.noise, (vkey voxel, triangles) :: w.triangle_cache⟩)

/-- `-d..=d` as a list of integers. -/
def intRange (d : Int) : List Int := (List.range (2 * d + 1).toNat).map fun k => -d + k

/-- The lexicographic triple iteration of `itertools::iproduct!` over
three copies of one range. -/
def iproduct3 (offs : List Int) : List (Int × Int × Int) :=
  offs.flatMap fun a => offs.flatMap fun b => offs.map fun c => (a, b, c)

/-- `World::retrieve_triangles`: union of the triangles of every voxel in
the cubic neighborhood `±ceil(dist / VOXEL_SIZE)` of `center`, iterated
in `iproduct!` (lexicographic) order. -/
def World.retrieve_triangles (w : World) (center : Vec3) (dist : ℚ) : List Triangle × World :=
  let baseVoxel := (center.divScalar VOXEL_SIZE).vfloor
  let offDist : Int := ⌈dist / VOXEL_SIZE⌉
  (iproduct3 (intRange offDist)).foldl
    (fun (acc : List Triangle × World) off =>
      let voxel := baseVoxel.add ⟨(off.1 : ℚ), (off.2.1 : ℚ), (off.2.2 : ℚ)⟩
      let r := acc.2.voxel_triangles voxel
      (acc.1 ++ r.1, r.2))
    ([], w)

/-- The Möller-Trumbore test of `World::voxel_collision` for one
triangle: `none` on near-zero determinant, barycentric coordinates
outside `[0,1]` (or `u + v > 1`), or `t < EPSILON`. -/
def rayTriangle (ray : Ray) (tri : Triangle) : Option ℚ :=
  let EPSILON : ℚ := 1 / 10000
  let e1 := tri.b.sub tri.a
  let e2 := tri.c.sub tri.a
  let p := Vec3.cross ray.dir e2
  let det := Vec3.dot e1 p
  if |det| < EPSILON then none
  else
    let invDet := 1 / det
    let tv := ray.pos.sub tri.a
    let u := Vec3.dot tv p * invDet
    if u < 0 ∨ 1 < u then none
    else
      let q := Vec3.cross tv e1
      let v := Vec3.dot ray.dir q * invDet
      if v < 0 ∨ 1 < u + v then none
      else
        let t := Vec3.dot e2 q * invDet
        if t < EPSILON then none else some t

/-- `World::voxel_collision`: the parametric distance of the first
triangle of the voxel the ray hits, if any. -/
def World.voxel_collision (w : World) (voxel : Vec3) (ray : Ray) : Option ℚ × World :=
  let r := w.voxel_triangles voxel
  (r.1.findSome? (rayTriangle ray), r.2)

/-- `handle_hit` (world/mod.rs lines 184-190): accept the hit
unconditionally when `dist <= 0`, else only when its squared distance
from the ray origin is at most `dist^2`. -/
def handle_hit (ray : Ray) (t : ℚ) (dist : ℚ) : Option Vec3 :=
  let hit_point := ray.pos.add (Vec3.smul t ray.dir)
  if dist ≤ 0 ∨ Vec3.distance_squared ray.pos hit_point ≤ dist * dist then some hit_point
  else none

/-- The per-iteration axis-advance flags of the DDA loop:
`voxel_incr[axis] = 1` iff that axis has the (weakly) smallest next
boundary `t`. -/
def dda_incr (t : Vec3) : Vec3 :=
  ⟨if t.x ≤ t.y ∧ t.x ≤ t.z then 1 else 0,
   if t.y ≤ t.x ∧ t.y ≤ t.z then 1 else 0,
   if t.z ≤ t.x ∧ t.z ≤ t.y then 1 else 0⟩

/-- The `for _ in 0..voxel_dist` DDA loop of `World::raycast`, threading
the world, and also emitting the list of voxels stepped into (the ghost
trace used to state the traversal-bound claims; the source computes the
same `cur_voxel` sequence without recording it). -/
def raycastLoop (ray : Ray) (dist : ℚ) (deltaT step : Vec3) :
    Nat → World → Vec3 → Vec3 → Option Vec3 × World × List Vec3
  | 0, w, _, _ => (none, w, [])
  | n + 1, w, t, curVoxel =>
    match w.voxel_collision (curVoxel.add ((dda_incr t).mul step)) ray with
    | (some tHit, w1) => (handle_hit ray tHit dist, w1, [curVoxel.add ((dda_incr t).mul step)])
    | (none, w1) =>
      let r := raycastLoop ray dist deltaT step n w1 (t.add ((dda_incr t).mul deltaT))
        (curVoxel.add ((dda_incr t).mul step))
      (r.1, r.2.1, curVoxel.add ((dda_incr t).mul step) :: r.2.2)

/-- The `voxel_dist` loop bound of `World::raycast` (world/mod.rs lines
67-68): `MAX_RAY_DIST` when `dist <= 0`, else
`max(ceil(dist / VOXEL_SIZE), MAX_RAY_DIST)`. -/
def voxelDist (dist : ℚ) : Int :=
  if dist ≤ 0 then MAX_RAY_DIST else max ⌈dist / VOXEL_SIZE⌉ MAX_RAY_DIST

/-- `World::raycast` (world/mod.rs lines 41-84) together with its ghost
voxel trace (origin voxel first).  `inv_dir` is modelled as exact
componentwise reciprocal, which is faithful only for direction vectors
with no zero component (a zero component yields IEEE infinities in the
source; see the discussion of C9). -/
def World.raycast_full (w : World) (ray : Ray) (dist : ℚ) :
    Option Vec3 × World × List Vec3 :=
  let curVoxel := (ray.pos.divScalar VOXEL_SIZE).vfloor
  match w.voxel_collision curVoxel ray with
  | (some tHit, w1) => (handle_hit ray tHit dist, w1, [curVoxel])
  | (none, w1) =>
    let step : Vec3 :=
      ⟨if ray.dir.x < 0 then -1 else 1,
       if ray.dir.y < 0 then -1 else 1,
       if ray.dir.z < 0 then -1 else 1⟩
    let invDir : Vec3 := ⟨1 / ray.dir.x, 1 / ray.dir.y, 1 / ray.dir.z⟩
    let t :=
      let mn := Vec3.smul VOXEL_SIZE (ray.pos.divScalar VOXEL_SIZE).vfloor
      let mx := mn.add ⟨VOXEL_SIZE, VOXEL_SIZE, VOXEL_SIZE⟩
      Vec3.vmax ((mn.sub ray.pos).mul invDir) ((mx.sub ray.pos).mul invDir)
    let deltaT := Vec3.smul VOXEL_SIZE (invDir.mul step)
    let r := raycastLoop ray dist deltaT step (voxelDist dist).toNat w1 t curVoxel
    (r.1, r.2.1, curVoxel :: r.2.2)

/-- `World::raycast` as the source exposes it: the optional hit plus the
updated world (cache growth). -/
def World.raycast (w : World) (ray : Ray) (dist : ℚ) : Option Vec3 × World :=
  let r := w.raycast_full ray dist
  (r.1, r.2.1)

/-- The voxels visited by `World::raycast` (origin voxel included). -/
def World.raycastVisits (w : World) (ray : Ray) (dist : ℚ) : List Vec3 :=
  (w.raycast_full ray dist).2.2

/-- The containment invariant stated by the spec: every stored mark lies
within the bounding cube of the leaf octant holding it. -/
def Octree.marksContained (o : Octree) : Bool :=
  o.octants.all fun oct =>
    match oct.content with
    | .Leaf data => data.all fun m => oct.contains ⟨m.pos⟩
    | .Parent _ => true

end ScannerDemo

namespace ScannerDemo

/-- Invariant carried through the child fold of `get_visible_rec`: the
octree is untouched and every buffered mark either was present initially
or comes from a leaf that passed every frustum plane. -/
def visInv (o : Octree) (buf : Buffer) (fr : Frustum) (st : Octree × Buffer) : Prop :=
  st.1 = o ∧ ∀ m ∈ st.2.data, m ∈ buf.data ∨ ∃ i data,
    (o.octantAt i).content = .Leaf data ∧ m ∈ data ∧ frustumPass (o.octantAt i) fr = true

/-- A vector with integer components (every voxel vector reaching
`voxel_triangles` has this form). -/
def Vec3.isInt (v : Vec3) : Prop := ∃ a b c : Int, v = ⟨(a : ℚ), (b : ℚ), (c : ℚ)⟩

/-- Cache coherence: every cached entry equals what a fresh computation
for that voxel key would produce.  `World::new` satisfies it (empty
cache) and `voxel_triangles` preserves it. -/
def World.coherent (w : World) : Prop :=
  ∀ k ts, w.triangle_cache.lookup k = some ts →
    ts = w.freshTriangles ⟨(k.1 : ℚ), (k.2.1 : ℚ), (k.2.2 : ℚ)⟩

/-- "All 8 corner samples of the voxel lie on the same side of the
surface threshold." -/
def sameSide (w : World) (voxel : Vec3) : Prop :=
  (∀ off ∈ CUBE_OFFSETS, w.surface_level (voxel.add off) < SURFACE_THRESHOLD) ∨
  (∀ off ∈ CUBE_OFFSETS, ¬ w.surface_level (voxel.add off) < SURFACE_THRESHOLD)

/-- The cache-free value of a `retrieve_triangles`-style sweep: the
concatenated fresh triangle lists of a voxel sequence.  Depends only on
the noise field. -/
def pureTrianglesFold (noise : ℚ → ℚ → ℚ → ℚ) : List Vec3 → List Triangle
  | [] => []
  | v :: vs => (World.new noise).freshTriangles v ++ pureTrianglesFold noise vs

/-- The voxel vectors visited by `retrieve_triangles`. -/
def retrieveVoxels (center : Vec3) (dist : ℚ) : List Vec3 :=
  let baseVoxel := (center.divScalar VOXEL_SIZE).vfloor
  (iproduct3 (intRange ⌈dist / VOXEL_SIZE⌉)).map fun off =>
    baseVoxel.add ⟨(off.1 : ℚ), (off.2.1 : ℚ), (off.2.2 : ℚ)⟩

/-! ## Concrete inputs used by the per-claim theorems -/

/-- C1 failing input: a fresh octree (any bucket size; 128 is the one
`Marker::new` uses), a first mark outside the root cube that forces one
growth step, then a second mark. -/
def c1tree : Octree :=
  ((Octree.new 128).insert 100 ⟨⟨100, 0, 0⟩⟩).insert 100 ⟨⟨60, -60, -60⟩⟩

/-- C7 scenario points: 8 points in distinct octants of the root cube,
the octant with all-positive coordinates receiving a 9th. -/
def c7points : List Mark :=
  [⟨⟨40, 40, 40⟩⟩, ⟨⟨-25, -25, -25⟩⟩, ⟨⟨25, -25, -25⟩⟩, ⟨⟨-25, 25, -25⟩⟩,
   ⟨⟨25, 25, -25⟩⟩, ⟨⟨-25, -25, 25⟩⟩, ⟨⟨25, -25, 25⟩⟩, ⟨⟨-25, 25, 25⟩⟩, ⟨⟨10, 10, 10⟩⟩]

/-- C7 scenario: the octree after inserting the 9 points with bucket
size 1. -/
def c7tree : Octree := c7points.foldl (fun o m => o.insert 100 m) (Octree.new 1)

/-- A one-octant octree whose root is a leaf holding a single mark. -/
def c2tree : Octree := ⟨0, 128, [⟨⟨0, 0, 0⟩, 50, .Leaf [⟨⟨0, 0, 0⟩⟩]⟩]⟩

/-- A frustum every plane of which rejects `c2tree`'s root cube. -/
def c2frustumFail : Frustum := List.replicate 6 ⟨1, 0, 0, 100⟩

/-- A frustum that accepts everything near the origin. -/
def c2frustumPass : Frustum := List.replicate 6 ⟨0, 0, 0, -1⟩

/-- A three-octant octree whose root is a parent (two leaves at distinct
distances from the origin), exercising the child sort. -/
def c3tree : Octree :=
  ⟨2, 128,
   [⟨⟨-10, 0, 0⟩, 25, .Leaf [⟨⟨-10, 0, 0⟩⟩]⟩,
    ⟨⟨30, 0, 0⟩, 25, .Leaf [⟨⟨30, 0, 0⟩⟩]⟩,
    ⟨⟨0, 0, 0⟩, 50, .Parent [0, 1, 0, 1, 0, 1, 0, 1]⟩]⟩

/-- C5 witness world: the noise field is negative exactly at the origin
sample point, so the origin voxel holds one triangle near its corner. -/
def c5world : World := World.new fun x y z => if x = 0 ∧ y = 0 ∧ z = 0 then -1 else 1

/-- C5 witness ray: starts inside the origin voxel, aimed at that
triangle. -/
def c5ray : Ray := ⟨⟨1 / 2, 1 / 2, 1 / 10⟩, ⟨1, 1, 1⟩⟩

/-- C6 counterexample world: the noise field is negative exactly at the
sample point of lattice vertex `(0, 0, 302)`, so the first surface a ray
marching up the z axis meets lies in voxel `(0, 0, 301)` — 301 voxel
steps beyond the origin voxel.  The cache is pre-seeded with the (empty)
triangle lists of the 301 pass-through voxels, exactly what a fresh
computation yields for them. -/
def c6world : World :=
  ⟨fun x y z => if x = 0 ∧ y = 0 ∧ z = 151 / 10 then -1 else 1,
   (List.range 301).map fun k => (((0 : Int), (0 : Int), (k : Int)), ([] : List Triangle))⟩

/-- C6 counterexample ray: from inside the origin voxel, almost straight
up the z axis (tiny nonzero x/y components keep the traversal on the
`(0, 0, k)` voxel column for far more than 301 steps). -/
def c6ray : Ray := ⟨⟨1, 1, 2⟩, ⟨1 / 1000000, 1 / 1000000, 1⟩⟩

/-! ## Helper lemmas about `get_visible_rec` -/

/-- A fold whose step keeps the first component fixed keeps it fixed. -/
theorem foldl_fst_fixed {α : Type} (f : Octree × Buffer → α → Octree × Buffer)
    (hf : ∀ st a, (f st a).1 = st.1) :
    ∀ (l : List α) (st : Octree × Buffer), (l.foldl f st).1 = st.1 := by
  intro l
  induction l with
  | nil => intro st; rfl
  | cons a l ih => intro st; rw [List.foldl_cons, ih, hf]

/-- `get_visible_rec` never modifies the octree component. -/
theorem get_visible_rec_fst :
    ∀ (fuel : Nat) (o : Octree) (buf : Buffer) (id : Nat) (pos : Vec3) (fr : Frustum),
      (Octree.get_visible_rec fuel o buf id pos fr).1 = o := by
  intro fuel
  induction fuel with
  | zero => intro o buf id pos fr; rfl
  | succ n ih =>
    intro o buf id pos fr
    unfold Octree.get_visible_rec
    by_cases h : buf.data.length = buf.cap
    · simp [h]
    · simp only [h, if_false]
      cases hc : (o.octantAt id).content with
      | Parent children =>
        exact foldl_fst_fixed _
          (fun st a => by
            by_cases hp : frustumPass (st.1.octantAt a) fr
            · simp only [hp, if_true]; exact ih st.1 st.2 a pos fr
            · simp [hp])
          _ _
      | Leaf data => rfl

end ScannerDemo

namespace ScannerDemo

/-- A fold whose step preserves a predicate preserves it. -/
theorem foldl_preserves {α β : Type} (f : β → α → β) (P : β → Prop)
    (hf : ∀ st a, P st → P (f st a)) :
    ∀ (l : List α) (st : β), P st → P (l.foldl f st) := by
  intro l
  induction l with
  | nil => intro st h; exact h
  | cons a l ih => intro st h; rw [List.foldl_cons]; exact ih _ (hf st a h)
/-- `get_visible_rec` preserves the buffer's capacity. -/
theorem get_visible_rec_cap :
    ∀ (fuel : Nat) (o : Octree) (buf : Buffer) (id : Nat) (pos : Vec3) (fr : Frustum),
      (Octree.get_visible_rec fuel o buf id pos fr).2.cap = buf.cap := by
  intro fuel
  induction fuel with
  | zero => intro o buf id pos fr; rfl
  | succ n ih =>
    intro o buf id pos fr
    unfold Octree.get_visible_rec
    split
    · rfl
    · split
      · refine foldl_preserves _ (fun st : Octree × Buffer => st.2.cap = buf.cap) ?_ _ _ rfl
        intro st a hst
        by_cases hp : frustumPass (st.1.octantAt a) fr
        · simp only [hp, if_true]; rw [ih]; exact hst
        · simp only [hp, if_false]; exact hst
      · rfl

/-- `get_visible_rec` never grows the buffer beyond its capacity. -/
theorem get_visible_rec_len :
    ∀ (fuel : Nat) (o : Octree) (buf : Buffer) (id : Nat) (pos : Vec3) (fr : Frustum),
      buf.data.length ≤ buf.cap →
      (Octree.get_visible_rec fuel o buf id pos fr).2.data.length ≤ buf.cap := by
  intro fuel
  induction fuel with
  | zero => intro o buf id pos fr h; exact h
  | succ n ih =>
    intro o buf id pos fr h
    unfold Octree.get_visible_rec
    split
    · exact h
    · split
      · refine (foldl_preserves _
          (fun st : Octree × Buffer => st.2.cap = buf.cap ∧ st.2.data.length ≤ buf.cap)
          ?_ _ _ ⟨rfl, h⟩).2
        intro st a hst
        by_cases hp : frustumPass (st.1.octantAt a) fr
        · simp only [hp, if_true]
          refine ⟨(get_visible_rec_cap n st.1 st.2 a pos fr).trans hst.1, ?_⟩
          have hb := ih st.1 st.2 a pos fr (hst.1.symm ▸ hst.2)
          exact hst.1 ▸ hb
        · simp only [hp, if_false]; exact hst
      · simp only [List.length_append, List.length_take]
        omega

end ScannerDemo

namespace ScannerDemo

/-- Provenance of every mark placed in the buffer by `get_visible_rec`:
it was already there, or it comes from a leaf octant that is either the
octant the recursion was entered at or one that passed all frustum
planes. -/
theorem get_visible_rec_mem :
    ∀ (fuel : Nat) (o : Octree) (buf : Buffer) (id : Nat) (pos : Vec3) (fr : Frustum)
      (m : MarkRaw), m ∈ (Octree.get_visible_rec fuel o buf id pos fr).2.data →
      m ∈ buf.data ∨ ∃ i data, (o.octantAt i).content = .Leaf data ∧ m ∈ data ∧
        (i = id ∨ frustumPass (o.octantAt i) fr = true) := by
  intro fuel
  induction fuel with
  | zero => intro o buf id pos fr m hm; exact Or.inl hm
  | succ n ih =>
    intro o buf id pos fr m hm
    rw [Octree.get_visible_rec] at hm
    by_cases h : buf.data.length = buf.cap
    · simp only [h, if_true] at hm; exact Or.inl hm
    · simp only [h, if_false] at hm
      cases hc : (o.octantAt id).content with
      | Parent children =>
        rw [hc] at hm
        have hstep : ∀ (st : Octree × Buffer) (a : Nat), visInv o buf fr st →
            visInv o buf fr (if frustumPass (st.1.octantAt a) fr then
              Octree.get_visible_rec n st.1 st.2 a pos fr else st) := by
          intro st a hst
          by_cases hp : frustumPass (st.1.octantAt a) fr
          · simp only [hp, if_true]
            refine ⟨get_visible_rec_fst n st.1 st.2 a pos fr |>.trans hst.1, ?_⟩
            intro m hm
            rcases ih st.1 st.2 a pos fr m hm with h1 | h2
            · exact hst.2 m h1
            · obtain ⟨i, data, h2, h3, h4⟩ := h2
              rw [hst.1] at h2 h4
              rcases h4 with h4 | h4
              · subst h4
                exact Or.inr ⟨i, data, h2, h3, by rwa [hst.1] at hp⟩
              · exact Or.inr ⟨i, data, h2, h3, h4⟩
          · simp only [hp, if_false]; exact hst
        have hfold := foldl_preserves _ _ hstep (sortChildren o pos children) (o, buf)
          ⟨rfl, fun m hm => Or.inl hm⟩
        rcases hfold.2 m hm with h1 | h2
        · exact Or.inl h1
        · obtain ⟨i, data, h2, h3, h4⟩ := h2
          exact Or.inr ⟨i, data, h2, h3, Or.inr h4⟩
      | Leaf data =>
        rw [hc] at hm
        simp only [List.mem_append] at hm
        rcases hm with hm | hm
        · exact Or.inl hm
        · exact Or.inr ⟨id, data, hc, List.mem_of_mem_take hm, Or.inl rfl⟩

end ScannerDemo

namespace ScannerDemo

/-- **C4**: `get_visible` first clears the caller's buffer (the result is
the same as when starting from an empty buffer of the same capacity),
never fills it beyond its fixed capacity, and leaves the capacity
unchanged (no reallocation). -/
theorem get_visible_capacity (fuel : Nat) (o : Octree) (buf : Buffer) (pos : Vec3)
    (fr : Frustum) :
    (o.get_visible fuel buf pos fr).2.data.length ≤ buf.cap ∧
    (o.get_visible fuel buf pos fr).2.cap = buf.cap ∧
    o.get_visible fuel buf pos fr = o.get_visible fuel ⟨buf.cap, []⟩ pos fr := by
  refine ⟨?_, ?_, rfl⟩
  · exact get_visible_rec_len fuel o ⟨buf.cap, []⟩ o.root pos fr (Nat.zero_le _)
  · exact get_visible_rec_cap fuel o ⟨buf.cap, []⟩ o.root pos fr

/-- **C10**: although the source takes the octree by `&mut`, a
visibility query leaves the octree (root index, bucket size, and every
octant) exactly as it was; only the buffer component of the result
differs from the inputs. -/
theorem get_visible_frame (fuel : Nat) (o : Octree) (buf : Buffer) (pos : Vec3)
    (fr : Frustum) :
    (o.get_visible fuel buf pos fr).1 = o := by
  exact get_visible_rec_fst fuel o ⟨buf.cap, []⟩ o.root pos fr

/-- **C2** (counterexample): the root octant is never tested against the
frustum.  With a single-leaf root holding one mark and a frustum all six
planes of which reject the root's cube, `get_visible` still returns the
mark, although the octant storing it fails the radius-against-plane test
for every plane. -/
theorem get_visible_root_untested :
    (⟨⟨0, 0, 0⟩⟩ : MarkRaw) ∈ (c2tree.get_visible 1 ⟨1, []⟩ ⟨0, 0, 0⟩ c2frustumFail).2.data ∧
    frustumPass (c2tree.octantAt c2tree.root) c2frustumFail = false := by
  with_unfolding_all decide

/-- **C2** (amended): every mark `get_visible` places in the buffer is
stored in a leaf octant that either passed the radius-against-plane test
for all frustum planes, or is the root octant itself (the root is the
one octant the query never tests). -/
theorem get_visible_mem_passes (fuel : Nat) (o : Octree) (buf : Buffer) (pos : Vec3)
    (fr : Frustum) (m : MarkRaw)
    (hm : m ∈ (o.get_visible fuel buf pos fr).2.data) :
    ∃ i data, (o.octantAt i).content = .Leaf data ∧ m ∈ data ∧
      (i = o.root ∨ frustumPass (o.octantAt i) fr = true) := by
  rcases get_visible_rec_mem fuel o ⟨buf.cap, []⟩ o.root pos fr m hm with h | h
  · simp at h
  · exact h

/-- Witness for `get_visible_mem_passes` at a concrete input. -/
theorem get_visible_mem_passes_witness :
    (⟨⟨0, 0, 0⟩⟩ : MarkRaw) ∈ (c2tree.get_visible 1 ⟨1, []⟩ ⟨0, 0, 0⟩ c2frustumPass).2.data ∧
    ∃ i data, (c2tree.octantAt i).content = .Leaf data ∧ (⟨⟨0, 0, 0⟩⟩ : MarkRaw) ∈ data ∧
      (i = c2tree.root ∨ frustumPass (c2tree.octantAt i) c2frustumPass = true) := by
  refine ⟨by with_unfolding_all decide, ?_⟩
  exact get_visible_mem_passes 1 c2tree ⟨1, []⟩ ⟨0, 0, 0⟩ c2frustumPass ⟨⟨0, 0, 0⟩⟩
    (by with_unfolding_all decide)

end ScannerDemo

namespace ScannerDemo

set_option maxRecDepth 100000

/-- **C3**: at every internal node, `get_visible_rec` visits the children
in an order that is a permutation of the child array sorted so squared
distances from the viewpoint are non-increasing — farther octants are
pushed first and nearer ones appended later into the front-to-back
filled, capacity-bounded buffer. -/
theorem get_visible_children_farthest_first (fuel : Nat) (o : Octree) (buf : Buffer)
    (id : Nat) (pos : Vec3) (fr : Frustum) (children : List Nat)
    (hc : (o.octantAt id).content = .Parent children) :
    (sortChildren o pos children).Perm children ∧
    (sortChildren o pos children).Pairwise
      (fun a b => Vec3.distance_squared (o.octantAt b).center pos
        ≤ Vec3.distance_squared (o.octantAt a).center pos) ∧
    Octree.get_visible_rec (fuel + 1) o buf id pos fr =
      (if buf.data.length = buf.cap then (o, buf) else
        (sortChildren o pos children).foldl
          (fun (st : Octree × Buffer) childId =>
            if frustumPass (st.1.octantAt childId) fr then
              Octree.get_visible_rec fuel st.1 st.2 childId pos fr
            else st)
          (o, buf)) := by
  refine ⟨List.mergeSort_perm children _, ?_, ?_⟩
  · have hs := @List.sorted_mergeSort Nat
      (fun a b => decide (Vec3.distance_squared (o.octantAt b).center pos
        ≤ Vec3.distance_squared (o.octantAt a).center pos))
      (fun a b c hab hbc => by
        simp only [decide_eq_true_eq] at *
        exact le_trans hbc hab)
      (fun a b => by
        simpa using le_total (Vec3.distance_squared (o.octantAt b).center pos)
          (Vec3.distance_squared (o.octantAt a).center pos))
      children
    exact hs.imp fun h => by simpa using h
  · rw [Octree.get_visible_rec, hc]

end ScannerDemo

namespace ScannerDemo

set_option maxRecDepth 1000000

/-- Witness for `get_visible_children_farthest_first` at a concrete
parent node. -/
theorem get_visible_children_farthest_first_witness :
    (c3tree.octantAt 2).content = .Parent [0, 1, 0, 1, 0, 1, 0, 1] ∧
    ((sortChildren c3tree ⟨0, 0, 0⟩ [0, 1, 0, 1, 0, 1, 0, 1]).Perm [0, 1, 0, 1, 0, 1, 0, 1] ∧
      (sortChildren c3tree ⟨0, 0, 0⟩ [0, 1, 0, 1, 0, 1, 0, 1]).Pairwise
        (fun a b => Vec3.distance_squared (c3tree.octantAt b).center ⟨0, 0, 0⟩
          ≤ Vec3.distance_squared (c3tree.octantAt a).center ⟨0, 0, 0⟩) ∧
      Octree.get_visible_rec (1 + 1) c3tree ⟨2, []⟩ 2 ⟨0, 0, 0⟩ [] =
        (if (⟨2, []⟩ : Buffer).data.length = (⟨2, []⟩ : Buffer).cap then (c3tree, ⟨2, []⟩) else
          (sortChildren c3tree ⟨0, 0, 0⟩ [0, 1, 0, 1, 0, 1, 0, 1]).foldl
            (fun (st : Octree × Buffer) childId =>
              if frustumPass (st.1.octantAt childId) [] then
                Octree.get_visible_rec 1 st.1 st.2 childId ⟨0, 0, 0⟩ []
              else st)
            (c3tree, ⟨2, []⟩))) :=
  ⟨by with_unfolding_all decide,
   get_visible_children_farthest_first 1 c3tree ⟨2, []⟩ 2 ⟨0, 0, 0⟩ [] _
     (by with_unfolding_all decide)⟩

/-- **C3** (counterexample to the retention clause): with an
all-accepting frustum, a viewpoint at the origin, and an output buffer
of capacity 1 over a parent with a near leaf (center `(-10,0,0)`,
holding its mark) and a far leaf (center `(30,0,0)`), the query returns
only the *farthest* mark: the farthest-first fill of a capacity-bounded
buffer retains the farthest content and drops the nearest once the cap
truncates, not the other way around. -/
theorem get_visible_cap_drops_nearest :
    (c3tree.get_visible 2 ⟨1, []⟩ ⟨0, 0, 0⟩ c2frustumPass).2.data = [⟨⟨30, 0, 0⟩⟩] ∧
    (c3tree.octantAt 0).content = .Leaf [⟨⟨-10, 0, 0⟩⟩] ∧
    frustumPass (c3tree.octantAt 0) c2frustumPass = true ∧
    Vec3.distance_squared ⟨-10, 0, 0⟩ ⟨0, 0, 0⟩ < Vec3.distance_squared ⟨30, 0, 0⟩ ⟨0, 0, 0⟩ := by
  with_unfolding_all decide

/-- **C1** (code evaluated at the failing input): after one growth step
(triggered by inserting `(100,0,0)` into a fresh octree) the old root —
center `(0,0,0)`, half-extent 50 — sits in child slot 1 of the new root,
the slot on the side of the new center where the *mark* fell, while a
fresh empty leaf with the old root's own center occupies slot 6.
Inserting `(60,-60,-60)` then descends into the old root and stores the
mark in an octant whose bounding cube does not contain it, violating the
containment invariant. -/
theorem insert_growth_containment_violation :
    (c1tree.octantAt c1tree.root).content = .Parent [1, 0, 2, 3, 4, 5, 6, 7] ∧
    (c1tree.octantAt 0).center = ⟨0, 0, 0⟩ ∧
    (c1tree.octantAt 6).center = ⟨0, 0, 0⟩ ∧
    (c1tree.octantAt 0).content = .Leaf [⟨⟨60, -60, -60⟩⟩] ∧
    (c1tree.octantAt 0).contains ⟨⟨60, -60, -60⟩⟩ = false ∧
    c1tree.marksContained = false := by
  with_unfolding_all decide

/-- **C7**: starting from an empty octree with bucket size 1, inserting
9 points spread over the 8 root octants (the all-positive octant
receiving two) gives `count() = 9`, and the overflowed leaf (octant 8,
center `(25,25,25)`) has become an internal node with 8 fresh children,
each centered at the parent's center offset by half the parent's
half-extent in each axis direction. -/
theorem insert_overflow_split_scenario :
    c7tree.count = 9 ∧
    (c7tree.octantAt 8).content = .Parent [9, 10, 11, 12, 13, 14, 15, 16] ∧
    (c7tree.octantAt 8).center = ⟨25, 25, 25⟩ ∧
    (c7tree.octantAt 8).extension = 25 ∧
    (∀ k < 8, (c7tree.octantAt (9 + k)).center = childOffset ⟨25, 25, 25⟩ (25 / 2) k ∧
      (c7tree.octantAt (9 + k)).extension = 25 / 2) ∧
    (c7tree.octantAt 16).content = .Leaf [⟨⟨40, 40, 40⟩⟩] ∧
    (c7tree.octantAt 9).content = .Leaf [⟨⟨10, 10, 10⟩⟩] := by
  with_unfolding_all decide

end ScannerDemo

namespace ScannerDemo

/-- What a `some` result of `handle_hit` means: the returned point is the
parametric hit point, and either the distance bound was disabled
(`dist <= 0`) or the squared distance is within it. -/
theorem handle_hit_spec (ray : Ray) (t d : ℚ) (p : Vec3)
    (h : handle_hit ray t d = some p) :
    p = ray.pos.add (Vec3.smul t ray.dir) ∧
    (d ≤ 0 ∨ Vec3.distance_squared ray.pos p ≤ d * d) := by
  rw [handle_hit] at h
  split at h
  · exact ⟨(Option.some.inj h).symm, Option.some.inj h ▸ (by assumption)⟩
  · exact absurd h (by simp)

/-- The DDA loop steps into at most `n` voxels, and any `some` result it
produces was produced by `handle_hit` at a collision found in one of the
visited voxels. -/
theorem raycastLoop_spec (ray : Ray) (dist : ℚ) (deltaT step : Vec3) :
    ∀ (n : Nat) (w : World) (t cv : Vec3),
      (raycastLoop ray dist deltaT step n w t cv).2.2.length ≤ n ∧
      (∀ p, (raycastLoop ray dist deltaT step n w t cv).1 = some p →
        ∃ v ∈ (raycastLoop ray dist deltaT step n w t cv).2.2, ∃ w1 w2 tH,
          World.voxel_collision w1 v ray = (some tH, w2) ∧
          handle_hit ray tH dist = some p) := by
  intro n
  induction n with
  | zero =>
    intro w t cv
    exact ⟨Nat.le_refl 0, fun p hp => absurd hp (by rw [raycastLoop]; simp)⟩
  | succ n ih =>
    intro w t cv
    rcases hcol : w.voxel_collision (cv.add ((dda_incr t).mul step)) ray with ⟨oc, w1⟩
    cases oc with
    | some tHit =>
      rw [raycastLoop, hcol]
      refine ⟨by simp, fun p hp => ?_⟩
      exact ⟨cv.add ((dda_incr t).mul step), by simp,
        w, w1, tHit, hcol, hp⟩
    | none =>
      rw [raycastLoop, hcol]
      obtain ⟨ihlen, ihsome⟩ := ih w1 (t.add ((dda_incr t).mul deltaT))
        (cv.add ((dda_incr t).mul step))
      refine ⟨by simpa using Nat.succ_le_succ ihlen, fun p hp => ?_⟩
      obtain ⟨v, hv, w1', w2', tH, hc, hh⟩ := ihsome p hp
      exact ⟨v, List.mem_cons_of_mem _ hv, w1', w2', tH, hc, hh⟩

/-- Corollary at `raycast` level: the visit list is bounded by
`voxel_dist + 1` (origin voxel included) and any hit arises from a
collision in a visited voxel accepted by `handle_hit`. -/
theorem raycast_full_spec (w : World) (ray : Ray) (dist : ℚ) :
    (w.raycastVisits ray dist).length ≤ (voxelDist dist).toNat + 1 ∧
    (∀ p, (w.raycast ray dist).1 = some p →
      ∃ v ∈ w.raycastVisits ray dist, ∃ w1 w2 tH,
        World.voxel_collision w1 v ray = (some tH, w2) ∧
        handle_hit ray tH dist = some p) := by
  rw [World.raycastVisits, World.raycast, World.raycast_full]
  rcases hcol : w.voxel_collision ((ray.pos.divScalar VOXEL_SIZE).vfloor) ray with ⟨oc, w1⟩
  cases oc with
  | some tHit =>
    dsimp only
    refine ⟨by simp, fun p hp => ?_⟩
    exact ⟨(ray.pos.divScalar VOXEL_SIZE).vfloor, by simp, w, w1, tHit, hcol, hp⟩
  | none =>
    dsimp only
    constructor
    · simp only [List.length_cons]
      exact Nat.succ_le_succ (raycastLoop_spec ray dist _ _ ((voxelDist dist).toNat) w1 _ _).1
    · intro p hp
      obtain ⟨v, hv, w1', w2', tH, hc, hh⟩ :=
        (raycastLoop_spec ray dist _ _ ((voxelDist dist).toNat) w1 _ _).2 p hp
      exact ⟨v, List.mem_cons_of_mem _ hv, w1', w2', tH, hc, hh⟩

end ScannerDemo

namespace ScannerDemo

set_option maxRecDepth 1000000

/-- **C5**: a hit is returned with a positive `max_distance` only when
its squared distance from the ray origin is at most `max_distance²`
(so a geometrically valid hit farther away yields no result), and for a
non-positive `max_distance` `handle_hit` accepts the hit
unconditionally. -/
theorem raycast_distance_bound :
    (∀ (w : World) (ray : Ray) (d : ℚ) (p : Vec3), 0 < d → (w.raycast ray d).1 = some p →
      Vec3.distance_squared ray.pos p ≤ d * d) ∧
    (∀ (ray : Ray) (t d : ℚ), d ≤ 0 →
      handle_hit ray t d = some (ray.pos.add (Vec3.smul t ray.dir))) := by
  constructor
  · intro w ray d p hd hp
    obtain ⟨v, _, w1, w2, tH, _, hh⟩ := (raycast_full_spec w ray d).2 p hp
    rcases (handle_hit_spec ray tH d p hh).2 with h | h
    · exact absurd hd (not_lt.mpr h)
    · exact h
  · intro ray t d hd
    rw [handle_hit]
    simp [hd]

/-- Witness for `raycast_distance_bound`: a concrete world whose origin
voxel holds one triangle; the hit at distance `√(49/75)` is within the
bound 10, and `handle_hit` with the sentinel `-1` accepts a hit
unconditionally. -/
theorem raycast_distance_bound_witness :
    ((0 : ℚ) < 10 ∧ (c5world.raycast c5ray 10).1 = some ⟨29 / 30, 29 / 30, 17 / 30⟩ ∧
      Vec3.distance_squared c5ray.pos ⟨29 / 30, 29 / 30, 17 / 30⟩ ≤ 10 * 10) ∧
    ((-1 : ℚ) ≤ 0 ∧
      handle_hit c5ray (7 / 15) (-1) = some (c5ray.pos.add (Vec3.smul (7 / 15) c5ray.dir))) :=
  ⟨⟨by norm_num, by with_unfolding_all decide,
    raycast_distance_bound.1 c5world c5ray 10 ⟨29 / 30, 29 / 30, 17 / 30⟩ (by norm_num)
      (by with_unfolding_all decide)⟩,
   ⟨by norm_num, raycast_distance_bound.2 c5ray (7 / 15) (-1) (by norm_num)⟩⟩

/-- **C6** (amended): the DDA loop advances through at most
`max(ceil(dist / VOXEL_SIZE), MAX_RAY_DIST)` voxels beyond the origin
voxel — which equals `MAX_RAY_DIST` whenever `dist ≤ 1500` (in
particular for every non-positive `dist`), but exceeds it when
`dist > 1500` — and any `some` result arises from a collision found at a
visited voxel and accepted by `handle_hit`; when the loop bound is
exhausted with no such collision the result is `none`. -/
theorem raycast_traversal_cap (w : World) (ray : Ray) (dist : ℚ) :
    (w.raycastVisits ray dist).length ≤ (voxelDist dist).toNat + 1 ∧
    (dist ≤ 1500 → voxelDist dist = MAX_RAY_DIST) ∧
    (∀ p, (w.raycast ray dist).1 = some p →
      ∃ v ∈ w.raycastVisits ray dist, ∃ w1 w2 tH,
        World.voxel_collision w1 v ray = (some tH, w2) ∧
        handle_hit ray tH dist = some p) := by
  refine ⟨(raycast_full_spec w ray dist).1, ?_, (raycast_full_spec w ray dist).2⟩
  intro h
  rw [voxelDist]
  by_cases h0 : dist ≤ 0
  · simp [h0]
  · simp only [h0, if_false]
    refine max_eq_right ?_
    rw [MAX_RAY_DIST]
    refine Int.ceil_le.mpr ?_
    rw [VOXEL_SIZE]
    push_cast
    linarith

/-- Witness for `raycast_traversal_cap` at a concrete input. -/
theorem raycast_traversal_cap_witness :
    ((c5world.raycastVisits c5ray 10).length ≤ (voxelDist 10).toNat + 1 ∧
      ((10 : ℚ) ≤ 1500 ∧ voxelDist 10 = MAX_RAY_DIST)) ∧
    ((c5world.raycast c5ray 10).1 = some ⟨29 / 30, 29 / 30, 17 / 30⟩ ∧
      ∃ v ∈ c5world.raycastVisits c5ray 10, ∃ w1 w2 tH,
        World.voxel_collision w1 v c5ray = (some tH, w2) ∧
        handle_hit c5ray tH 10 = some ⟨29 / 30, 29 / 30, 17 / 30⟩) :=
  ⟨⟨(raycast_traversal_cap c5world c5ray 10).1,
    by norm_num, (raycast_traversal_cap c5world c5ray 10).2.1 (by norm_num)⟩,
   ⟨by with_unfolding_all decide,
    (raycast_traversal_cap c5world c5ray 10).2.2 ⟨29 / 30, 29 / 30, 17 / 30⟩
      (by with_unfolding_all decide)⟩⟩

end ScannerDemo

namespace ScannerDemo

set_option maxRecDepth 4000000
set_option maxHeartbeats 40000000

end ScannerDemo

namespace ScannerDemo

/-- `f32 as i32` is the identity on integer values. -/
theorem ratTrunc_intCast (a : Int) : ratTrunc (a : ℚ) = a := by
  rw [ratTrunc]
  split
  · exact Int.floor_intCast a
  · exact Int.ceil_intCast a

/-- The cache key of an integer voxel vector is that integer triple. -/
theorem vkey_int (a b c : Int) : vkey ⟨(a : ℚ), (b : ℚ), (c : ℚ)⟩ = (a, b, c) := by
  rw [vkey]
  simp only [ratTrunc_intCast]

/-- `freshTriangles` reads only the noise field. -/
theorem freshTriangles_congr (w w' : World) (h : w.noise = w'.noise) (v : Vec3) :
    w.freshTriangles v = w'.freshTriangles v := by
  cases w with
  | mk n cache =>
    cases w' with
    | mk n' cache' =>
      simp only at h
      subst h
      rfl

/-- A freshly constructed world has a coherent (empty) cache. -/
theorem World.new_coherent (noise : ℚ → ℚ → ℚ → ℚ) : (World.new noise).coherent := by
  intro k ts h
  simp [World.new, List.lookup] at h

/-- On a coherent world, `voxel_triangles` at an integer voxel returns
the pure (cache-free) triangle list, preserves the noise field, and
preserves coherence. -/
theorem voxel_triangles_spec (w : World) (hw : w.coherent) (a b c : Int) :
    (w.voxel_triangles ⟨(a : ℚ), (b : ℚ), (c : ℚ)⟩).1
      = w.freshTriangles ⟨(a : ℚ), (b : ℚ), (c : ℚ)⟩ ∧
    (w.voxel_triangles ⟨(a : ℚ), (b : ℚ), (c : ℚ)⟩).2.noise = w.noise ∧
    (w.voxel_triangles ⟨(a : ℚ), (b : ℚ), (c : ℚ)⟩).2.coherent := by
  rw [World.voxel_triangles]
  cases hl : w.triangle_cache.lookup (vkey ⟨(a : ℚ), (b : ℚ), (c : ℚ)⟩) with
  | some ts =>
    dsimp only
    have hts := hw _ _ hl
    rw [vkey_int] at hts
    exact ⟨hts, rfl, hw⟩
  | none =>
    dsimp only
    refine ⟨rfl, rfl, ?_⟩
    intro k ts hk
    rw [vkey_int] at hk
    rw [List.lookup] at hk
    by_cases hek : k = (a, b, c)
    · subst hek
      simp only [beq_self_eq_true] at hk
      rw [← Option.some.inj hk]
      exact freshTriangles_congr _ _ rfl _
    · have hbeq : (k == (a, b, c)) = false := beq_eq_false_iff_ne.mpr hek
      rw [hbeq] at hk
      exact (hw k ts hk).trans (freshTriangles_congr _ _ rfl _)

end ScannerDemo

namespace ScannerDemo

/-- The retrieve sweep as a fold over its voxel list. -/
theorem retrieve_eq_fold (w : World) (center : Vec3) (dist : ℚ) :
    w.retrieve_triangles center dist =
      (retrieveVoxels center dist).foldl
        (fun (acc : List Triangle × World) v =>
          (acc.1 ++ (acc.2.voxel_triangles v).1, (acc.2.voxel_triangles v).2))
        ([], w) := by
  rw [World.retrieve_triangles, retrieveVoxels, List.foldl_map]

/-- Every voxel visited by `retrieve_triangles` has integer components. -/
theorem retrieveVoxels_int (center : Vec3) (dist : ℚ) :
    ∀ v ∈ retrieveVoxels center dist, v.isInt := by
  intro v hv
  rw [retrieveVoxels] at hv
  obtain ⟨off, _, rfl⟩ := List.mem_map.mp hv
  refine ⟨⌊(center.divScalar VOXEL_SIZE).x⌋ + off.1, ⌊(center.divScalar VOXEL_SIZE).y⌋ + off.2.1,
    ⌊(center.divScalar VOXEL_SIZE).z⌋ + off.2.2, ?_⟩
  rw [Vec3.vfloor, Vec3.add]
  push_cast
  rfl

/-- A cache-threading sweep over integer voxels of a coherent world
computes the pure concatenation, preserves the noise field and preserves
coherence. -/
theorem voxel_fold_spec :
    ∀ (vs : List Vec3), (∀ v ∈ vs, v.isInt) → ∀ (w : World) (acc : List Triangle),
      w.coherent →
      (vs.foldl
        (fun (acc : List Triangle × World) v =>
          (acc.1 ++ (acc.2.voxel_triangles v).1, (acc.2.voxel_triangles v).2))
        (acc, w)).1 = acc ++ pureTrianglesFold w.noise vs ∧
      (vs.foldl
        (fun (acc : List Triangle × World) v =>
          (acc.1 ++ (acc.2.voxel_triangles v).1, (acc.2.voxel_triangles v).2))
        (acc, w)).2.noise = w.noise ∧
      (vs.foldl
        (fun (acc : List Triangle × World) v =>
          (acc.1 ++ (acc.2.voxel_triangles v).1, (acc.2.voxel_triangles v).2))
        (acc, w)).2.coherent := by
  intro vs
  induction vs with
  | nil =>
    intro _ w acc hw
    exact ⟨by simp [pureTrianglesFold], rfl, hw⟩
  | cons v vs ih =>
    intro hint w acc hw
    obtain ⟨a, b, c, rfl⟩ := hint v (List.mem_cons_self v vs)
    obtain ⟨h1, h2, h3⟩ := voxel_triangles_spec w hw a b c
    simp only [List.foldl_cons]
    obtain ⟨ih1, ih2, ih3⟩ := ih (fun v hv => hint v (List.mem_cons_of_mem _ hv))
      (w.voxel_triangles ⟨(a : ℚ), (b : ℚ), (c : ℚ)⟩).2
      (acc ++ (w.voxel_triangles ⟨(a : ℚ), (b : ℚ), (c : ℚ)⟩).1) h3
    refine ⟨?_, ih2.trans h2, ih3⟩
    rw [ih1, h1, h2, pureTrianglesFold, List.append_assoc,
      freshTriangles_congr w (World.new w.noise) rfl]

end ScannerDemo

namespace ScannerDemo

/-- `retrieve_triangles` on a coherent world returns the pure sweep
value, preserves the noise field and preserves coherence. -/
theorem retrieve_spec (w : World) (center : Vec3) (dist : ℚ) (hw : w.coherent) :
    (w.retrieve_triangles center dist).1
      = pureTrianglesFold w.noise (retrieveVoxels center dist) ∧
    (w.retrieve_triangles center dist).2.noise = w.noise ∧
    (w.retrieve_triangles center dist).2.coherent := by
  rw [retrieve_eq_fold]
  have h := voxel_fold_spec (retrieveVoxels center dist) (retrieveVoxels_int center dist)
    w [] hw
  simpa using h

/-- Emptiness of the triangle-building loop depends only on the edge
list: empty iff the list opens with the terminator or is too short. -/
theorem trianglesFromEdges_eq_nil_iff (cube : List (Vec3 × ℚ)) (es : List Int) :
    trianglesFromEdges cube es = [] ↔ es.headD (-1) = -1 ∨ es.length < 3 := by
  rcases es with _ | ⟨e1, _ | ⟨e2, _ | ⟨e3, rest⟩⟩⟩
  · simp [trianglesFromEdges]
  · simp [trianglesFromEdges]
  · simp [trianglesFromEdges]
  · rw [trianglesFromEdges]
    by_cases h : e1 = -1
    · simp [h]
    · simp [h]

/-- The configuration built by the corner loop equals `layoutBits` of the
8 "corner below threshold" decisions. -/
theorem cubeLayout_eq (w : World) (v : Vec3) :
    cubeLayoutOf 0 (w.cubeCorners v) =
      layoutBits
        (decide (w.surface_level (v.add ⟨0, 0, 0⟩) < SURFACE_THRESHOLD))
        (decide (w.surface_level (v.add ⟨0, 0, 1⟩) < SURFACE_THRESHOLD))
        (decide (w.surface_level (v.add ⟨1, 0, 1⟩) < SURFACE_THRESHOLD))
        (decide (w.surface_level (v.add ⟨1, 0, 0⟩) < SURFACE_THRESHOLD))
        (decide (w.surface_level (v.add ⟨0, 1, 0⟩) < SURFACE_THRESHOLD))
        (decide (w.surface_level (v.add ⟨0, 1, 1⟩) < SURFACE_THRESHOLD))
        (decide (w.surface_level (v.add ⟨1, 1, 1⟩) < SURFACE_THRESHOLD))
        (decide (w.surface_level (v.add ⟨1, 1, 0⟩) < SURFACE_THRESHOLD)) := by
  simp only [World.cubeCorners, CUBE_OFFSETS, List.map_cons, List.map_nil, cubeLayoutOf,
    layoutBits, Bool.cond_decide]

/-- Decided over all 256 corner configurations: the (modelled) table
entry yields no triangle exactly when all corners agree. -/
theorem table_empty_iff_uniform :
    ∀ b0 b1 b2 b3 b4 b5 b6 b7 : Bool,
      ((TRIANGULATION_TABLE (layoutBits b0 b1 b2 b3 b4 b5 b6 b7)).headD (-1) = -1 ∨
        (TRIANGULATION_TABLE (layoutBits b0 b1 b2 b3 b4 b5 b6 b7)).length < 3) ↔
      (b0 = b1 ∧ b0 = b2 ∧ b0 = b3 ∧ b0 = b4 ∧ b0 = b5 ∧ b0 = b6 ∧ b0 = b7) := by
  intro b0 b1 b2 b3 b4 b5 b6 b7
  cases b0 <;> cases b1 <;> cases b2 <;> cases b3 <;> cases b4 <;> cases b5 <;> cases b6 <;>
    cases b7 <;> decide

/-- `freshTriangles` is empty exactly when all 8 corner samples lie on
the same side of the threshold. -/
theorem fresh_empty_iff (w : World) (v : Vec3) :
    w.freshTriangles v = [] ↔ sameSide w v := by
  rw [World.freshTriangles, trianglesFromEdges_eq_nil_iff, cubeLayout_eq,
    table_empty_iff_uniform]
  simp only [sameSide, CUBE_OFFSETS, List.mem_cons, List.not_mem_nil, or_false,
    forall_eq_or_imp, forall_eq, decide_eq_decide]
  by_cases h0 : w.surface_level (v.add ⟨0, 0, 0⟩) < SURFACE_THRESHOLD
  · simp [h0]
  · simp [h0]

end ScannerDemo

namespace ScannerDemo

/-- **C8**: on any coherent world (the `World::new` state is coherent and
every query preserves coherence), querying `voxel_triangles` again for
the same voxel returns the identical triangle list, running
`retrieve_triangles` twice over the same region returns the identical
list (memoization never alters results), and the returned list is empty
iff all 8 corner samples of the voxel lie on the same side of the
surface threshold. -/
theorem voxel_triangles_memo_coherent (w : World) (hw : w.coherent) (a b c : Int)
    (center : Vec3) (d : ℚ) :
    ((w.voxel_triangles ⟨(a : ℚ), (b : ℚ), (c : ℚ)⟩).2.voxel_triangles
        ⟨(a : ℚ), (b : ℚ), (c : ℚ)⟩).1
      = (w.voxel_triangles ⟨(a : ℚ), (b : ℚ), (c : ℚ)⟩).1 ∧
    ((w.retrieve_triangles center d).2.retrieve_triangles center d).1
      = (w.retrieve_triangles center d).1 ∧
    ((w.voxel_triangles ⟨(a : ℚ), (b : ℚ), (c : ℚ)⟩).1 = []
      ↔ sameSide w ⟨(a : ℚ), (b : ℚ), (c : ℚ)⟩) := by
  obtain ⟨h1, h2, h3⟩ := voxel_triangles_spec w hw a b c
  refine ⟨?_, ?_, ?_⟩
  · obtain ⟨h1', _, _⟩ := voxel_triangles_spec _ h3 a b c
    rw [h1', h1]
    exact freshTriangles_congr _ _ h2 _
  · obtain ⟨r1, r2, r3⟩ := retrieve_spec w center d hw
    obtain ⟨s1, _, _⟩ := retrieve_spec _ center d r3
    rw [s1, r1, r2]
  · rw [h1]
    exact fresh_empty_iff w _

/-- Witness for `voxel_triangles_memo_coherent` at a concrete world. -/
theorem voxel_triangles_memo_coherent_witness :
    (World.new fun _ _ _ => 1).coherent ∧
    ((((World.new fun _ _ _ => 1).voxel_triangles ⟨(0 : ℚ), (0 : ℚ), (0 : ℚ)⟩).2.voxel_triangles
        ⟨(0 : ℚ), (0 : ℚ), (0 : ℚ)⟩).1
      = ((World.new fun _ _ _ => 1).voxel_triangles ⟨(0 : ℚ), (0 : ℚ), (0 : ℚ)⟩).1 ∧
    (((World.new fun _ _ _ => 1).retrieve_triangles ⟨0, 0, 0⟩ 1).2.retrieve_triangles
        ⟨0, 0, 0⟩ 1).1
      = ((World.new fun _ _ _ => 1).retrieve_triangles ⟨0, 0, 0⟩ 1).1 ∧
    (((World.new fun _ _ _ => 1).voxel_triangles ⟨(0 : ℚ), (0 : ℚ), (0 : ℚ)⟩).1 = []
      ↔ sameSide (World.new fun _ _ _ => 1) ⟨(0 : ℚ), (0 : ℚ), (0 : ℚ)⟩)) :=
  ⟨World.new_coherent _,
   voxel_triangles_memo_coherent _ (World.new_coherent _) 0 0 0 ⟨0, 0, 0⟩ 1⟩

end ScannerDemo

namespace ScannerDemo

set_option maxRecDepth 4000000
set_option maxHeartbeats 40000000

/-- **C6** (counterexample): the loop bound is
`i32::max(ceil(dist / VOXEL_SIZE), MAX_RAY_DIST)` — a *max*, not a cap at
`MAX_RAY_DIST`.  With `max_distance = 1520` the traversal performs 301
voxel steps beyond the origin voxel (visiting 302 voxels, the last being
`(0, 0, 301)`) and returns the hit it finds there, where the claim
(at most `MAX_RAY_DIST = 300` voxels, then `None`) requires a miss. -/
theorem raycast_exceeds_claimed_cap :
    ((c6world.raycast c6ray 1520).1.isSome,
      (c6world.raycastVisits c6ray 1520).length,
      (c6world.raycastVisits c6ray 1520).getLast?) =
      (true, 302, some ⟨0, 0, 301⟩) ∧
    MAX_RAY_DIST.toNat + 1 = 301 := by
  constructor
  · with_unfolding_all decide
  · with_unfolding_all decide

end ScannerDemo
